import Mathlib

/-!
Shallow embedding of the `storage-proof-generator` repository
(`src/core/rlp-encoder.ts`, `src/core/proof-generator.ts`, `src/core/types.ts`)
and proofs about the claims of its specification.

Conventions of the embedding:
* JavaScript strings are Lean `String`s; a thrown exception is `Option.none`.
* A JavaScript value that may be either a hex string or a `bigint` (the
  `RpcBlockHeader` interface declares strings, but the call site in
  `proof-generator.ts` casts viem's formatted block, whose integer fields are
  bigints) is modelled by the sum type `JsVal`.
* `undefined`/`null` optional fields are `Option.none`.
* Byte strings are hex strings exactly as in the program (the program never
  leaves the hex-string representation except inside the trusted viem
  primitives, which are modelled byte-faithfully below).
* `keccak256` is a trusted external primitive (out of scope per the spec) and
  is therefore a parameter of every function that uses it.
-/

namespace StorageProof

/-- A JavaScript runtime value reaching the encoder's integer positions:
either a hex/decimal string or a bigint (here `Nat`; all chain quantities are
non-negative). -/
inductive JsVal where
  | str : String → JsVal
  | big : Nat → JsVal
deriving DecidableEq

/-- JavaScript truthiness for the values of `JsVal`: the empty string and the
bigint `0n` are falsy, everything else is truthy. -/
def jsTruthy : JsVal → Bool
  | .str s => s != ""
  | .big n => n != 0

/-- Lowercase hex digit character for a value below 16, as produced by
JavaScript's `Number.prototype.toString(16)` / `BigInt.prototype.toString(16)`. -/
def hexDigitChar (n : Nat) : Char :=
  if n < 10 then Char.ofNat (48 + n) else Char.ofNat (87 + n)

/-- Numeric value of a hex digit character (both cases accepted, as by
JavaScript's `BigInt` hex parsing), `none` for a non-hex character. -/
def hexCharVal (c : Char) : Option Nat :=
  if 48 ≤ c.toNat ∧ c.toNat ≤ 57 then some (c.toNat - 48)
  else if 97 ≤ c.toNat ∧ c.toNat ≤ 102 then some (c.toNat - 87)
  else if 65 ≤ c.toNat ∧ c.toNat ≤ 70 then some (c.toNat - 55)
  else none

/-- Numeric value of a decimal digit character, `none` otherwise. -/
def decCharVal (c : Char) : Option Nat :=
  if 48 ≤ c.toNat ∧ c.toNat ≤ 57 then some (c.toNat - 48) else none

/-- Is `c` a lowercase hex digit (`0`-`9` or `a`-`f`)? -/
def isLowerHexDigit (c : Char) : Bool :=
  (48 ≤ c.toNat && c.toNat ≤ 57) || (97 ≤ c.toNat && c.toNat ≤ 102)

/-- Fallback-to-zero value of a hex digit character. -/
def hexValD (c : Char) : Nat := (hexCharVal c).getD 0

/-- Big-endian (most significant digit first) value of a list of hex digit
characters. -/
def hexStrVal (l : List Char) : Nat :=
  l.foldl (fun acc c => 16 * acc + hexValD c) 0

/-- Parse a non-empty all-hex-digit character list, most significant first.
`none` on the empty list or any non-hex character (JavaScript's
`BigInt("0x")` and `BigInt` on malformed input throw). -/
def hexCharsVal (l : List Char) : Option Nat :=
  match l with
  | [] => none
  | _ =>
    l.foldl (fun acc c =>
      match acc, hexCharVal c with
      | some a, some v => some (16 * a + v)
      | _, _ => none) (some 0)

/-- Parse a non-empty all-decimal-digit character list. -/
def decCharsVal (l : List Char) : Option Nat :=
  match l with
  | [] => none
  | _ =>
    l.foldl (fun acc c =>
      match acc, decCharVal c with
      | some a, some v => some (10 * a + v)
      | _, _ => none) (some 0)

/-- JavaScript `BigInt(string)` restricted to the forms occurring in this
program: `"0x"`/`"0X"`-prefixed hex literals and plain decimal literals; the
empty string parses to `0` (as `BigInt("")` does); a malformed literal throws,
modelled as `none`. -/
def jsBigIntOfString (s : String) : Option Nat :=
  match s.data with
  | [] => some 0
  | '0' :: 'x' :: rest => hexCharsVal rest
  | '0' :: 'X' :: rest => hexCharsVal rest
  | l => decCharsVal l

/-- JavaScript `BigInt(x)` for the values of `JsVal` (a bigint is returned
unchanged). -/
def jsBigInt : JsVal → Option Nat
  | .big n => some n
  | .str s => jsBigIntOfString s

/-- Little-endian hex digit characters of `n` (empty for `0`), fuelled to be
structurally recursive, hence kernel-reducible. -/
def natToHexRevFuel : Nat → Nat → List Char
  | 0, _ => []
  | fuel + 1, n => if n = 0 then [] else hexDigitChar (n % 16) :: natToHexRevFuel fuel (n / 16)

/-- Little-endian hex digit characters of `n` (empty for `0`). -/
def natToHexRev (n : Nat) : List Char := natToHexRevFuel n n

/-- JavaScript `n.toString(16)` for a non-negative bigint: minimal lowercase
hex digits, `"0"` for zero. -/
def toString16 (n : Nat) : String :=
  if n = 0 then "0" else ⟨(natToHexRev n).reverse⟩

/-- The effect of `hex.replace(/^0x/, '')`: strip one leading `"0x"`. -/
def stripHexMarker : List Char → List Char
  | '0' :: 'x' :: rest => rest
  | l => l

/-- Left-pad a digit list with a single `'0'` to even length. -/
def padEvenChars (l : List Char) : List Char :=
  if l.length % 2 = 0 then l else '0' :: l

/-- `cleanHex` from `src/core/rlp-encoder.ts`: strip one leading `"0x"`,
left-pad with a single `'0'` to even length, and re-attach the `"0x"` prefix. -/
def cleanHex (hex : String) : String :=
  ⟨'0' :: 'x' :: padEvenChars (stripHexMarker hex.data)⟩

/-- `encodeInt` from `src/core/rlp-encoder.ts`: `BigInt(hex)`, then `"0x"` for
zero, else `cleanHex(value.toString(16))`; `none` models the exception thrown
by `BigInt` on a malformed literal. -/
def encodeInt (hex : JsVal) : Option String :=
  match jsBigInt hex with
  | none => none
  | some value => if value = 0 then some "0x" else some (cleanHex (toString16 value))

/-- The `RpcBlockHeader` interface of `src/core/rlp-encoder.ts`. The integer
fields carry `JsVal` because at the library boundary they are hex strings while
on the `proof-generator.ts` call path they are viem-formatted bigints; absent
optional fields (`undefined`, or viem's `null` for a pre-London
`baseFeePerGas`) are `none`. -/
structure RpcBlockHeader where
  parentHash : String
  sha3Uncles : String
  miner : String
  stateRoot : String
  transactionsRoot : String
  receiptsRoot : String
  logsBloom : String
  difficulty : JsVal
  number : JsVal
  gasLimit : JsVal
  gasUsed : JsVal
  timestamp : JsVal
  extraData : String
  mixHash : String
  nonce : String
  baseFeePerGas : Option JsVal
  withdrawalsRoot : Option String
  blobGasUsed : Option JsVal
  excessBlobGas : Option JsVal
  parentBeaconBlockRoot : Option String
  requestsHash : Option String
deriving DecidableEq

/-- `if (field) headerFields.push(encodeInt(field))`: push the integer encoding
of an optional field when the field is truthy. -/
def pushIntTruthy (f : Option JsVal) (acc : Option (List String)) : Option (List String) :=
  match acc with
  | none => none
  | some l =>
    match f with
    | none => some l
    | some v =>
      if jsTruthy v then
        match encodeInt v with
        | some e => some (l ++ [e])
        | none => none
      else some l

/-- `if (field !== undefined) headerFields.push(encodeInt(field))`: push the
integer encoding of an optional field whenever the field is present (the check
used for `excessBlobGas`). -/
def pushIntDefined (f : Option JsVal) (acc : Option (List String)) : Option (List String) :=
  match acc with
  | none => none
  | some l =>
    match f with
    | none => some l
    | some v =>
      match encodeInt v with
      | some e => some (l ++ [e])
      | none => none

/-- `if (field) headerFields.push(cleanHex(field))`: push the cleaned hex of an
optional byte-string field when it is truthy. -/
def pushStrTruthy (f : Option String) (acc : Option (List String)) : Option (List String) :=
  match acc with
  | none => none
  | some l =>
    match f with
    | none => some l
    | some s => if s != "" then some (l ++ [cleanHex s]) else some l

/-- The fifteen always-present base fields of the header, in source order;
`none` models a `BigInt` exception while encoding an integer field. -/
def baseHeaderFields (b : RpcBlockHeader) : Option (List String) :=
  match encodeInt b.difficulty, encodeInt b.number, encodeInt b.gasLimit,
        encodeInt b.gasUsed, encodeInt b.timestamp with
  | some d, some n, some gl, some gu, some ts =>
    some [cleanHex b.parentHash, cleanHex b.sha3Uncles, cleanHex b.miner,
          cleanHex b.stateRoot, cleanHex b.transactionsRoot, cleanHex b.receiptsRoot,
          cleanHex b.logsBloom, d, n, gl, gu, ts,
          cleanHex b.extraData, cleanHex b.mixHash, cleanHex b.nonce]
  | _, _, _, _, _ => none

/-- The full `headerFields` array built by `encodeBlockHeaderToRlp` in
`src/core/rlp-encoder.ts` (lines 66-108): fifteen base fields, then the
conditional pushes for `baseFeePerGas`, `withdrawalsRoot`, `blobGasUsed`,
`excessBlobGas`, `parentBeaconBlockRoot`, `requestsHash`, exactly as in the
source (all gates are truthiness except `excessBlobGas`, which tests
`!== undefined`). -/
def headerFieldsList (b : RpcBlockHeader) : Option (List String) :=
  pushStrTruthy b.requestsHash
    (pushStrTruthy b.parentBeaconBlockRoot
      (pushIntDefined b.excessBlobGas
        (pushIntTruthy b.blobGasUsed
          (pushStrTruthy b.withdrawalsRoot
            (pushIntTruthy b.baseFeePerGas (baseHeaderFields b))))))

/-- Pair up hex digit characters into bytes, most significant first; `none` on
odd length or a non-hex character (viem's `hexToBytes` throws in both cases). -/
def hexCharsToBytes : List Char → Option (List Nat)
  | [] => some []
  | c1 :: c2 :: rest =>
    match hexCharVal c1, hexCharVal c2, hexCharsToBytes rest with
    | some hi, some lo, some bs => some ((16 * hi + lo) :: bs)
    | _, _, _ => none
  | [_] => none

/-- viem `hexToBytes` on a `0x`-prefixed hex string; `none` models the
exceptions thrown on a missing prefix, odd length, or invalid character. -/
def hexToBytes (s : String) : Option (List Nat) :=
  match s.data with
  | '0' :: 'x' :: rest => hexCharsToBytes rest
  | _ => none

/-- Little-endian base-256 digits of `n` (empty for `0`), fuelled to be
structurally recursive. -/
def natToBytesRevFuel : Nat → Nat → List Nat
  | 0, _ => []
  | fuel + 1, n => if n = 0 then [] else (n % 256) :: natToBytesRevFuel fuel (n / 256)

/-- Minimal big-endian byte representation of `n` (empty for `0`), as used for
RLP length-of-length prefixes. -/
def natToBytesBE (n : Nat) : List Nat := (natToBytesRevFuel n n).reverse

/-- RLP encoding of one byte string. -/
def rlpEncodeBytes (bs : List Nat) : List Nat :=
  match bs with
  | [b] => if b < 128 then [b] else [129, b]
  | _ =>
    if bs.length ≤ 55 then (128 + bs.length) :: bs
    else (183 + (natToBytesBE bs.length).length) :: (natToBytesBE bs.length ++ bs)

/-- RLP list envelope around an already-encoded payload. -/
def rlpEncodeListPayload (payload : List Nat) : List Nat :=
  if payload.length ≤ 55 then (192 + payload.length) :: payload
  else (247 + (natToBytesBE payload.length).length) :: (natToBytesBE payload.length ++ payload)

/-- Lowercase hex rendering of a byte list with `0x` prefix, as produced by
viem's `bytesToHex`. -/
def bytesToHex (bs : List Nat) : String :=
  ⟨'0' :: 'x' :: bs.foldr
    (fun b acc => hexDigitChar (b / 16 % 16) :: hexDigitChar (b % 16) :: acc) []⟩

/-- Convert every item of a list from hex to bytes; `none` if any conversion
throws. -/
def mapHexToBytes : List String → Option (List (List Nat))
  | [] => some []
  | s :: rest =>
    match hexToBytes s, mapHexToBytes rest with
    | some bs, some bss => some (bs :: bss)
    | _, _ => none

/-- viem `toRlp` on a flat list of hex byte strings: RLP-encode each item,
concatenate, wrap in the list envelope, and render as hex. -/
def toRlp (items : List String) : Option String :=
  match mapHexToBytes items with
  | none => none
  | some bss => some (bytesToHex (rlpEncodeListPayload (bss.flatMap rlpEncodeBytes)))

/-- `encodeBlockHeaderToRlp` from `src/core/rlp-encoder.ts`: build the header
field array and RLP-encode it as a list. -/
def encodeBlockHeaderToRlp (rpcBlock : RpcBlockHeader) : Option String :=
  match headerFieldsList rpcBlock with
  | none => none
  | some fields => toRlp fields

/-- viem `toHex` on a non-negative bigint without a size option: `0x` followed
by the minimal hex digits (possibly an odd number of them; `0x0` for zero). -/
def numberToHex (n : Nat) : String := ⟨'0' :: 'x' :: (toString16 n).data⟩

/-- viem `toHex(value, size: 32)`: minimal hex digits left-padded with zeros
to 64 characters; viem throws (here `none`) when the value does not fit in
32 bytes. -/
def numberToHexSize32 (n : Nat) : Option String :=
  let h := (toString16 n).data
  if h.length ≤ 64 then some ⟨'0' :: 'x' :: (List.replicate (64 - h.length) '0' ++ h)⟩
  else none

/-- viem `toHex` applied to a `JsVal`: a bigint is rendered numerically, a
string is rendered as the hex of its character bytes (modelled for the ASCII
strings occurring in this program). -/
def jsToHex : JsVal → String
  | .big n => numberToHex n
  | .str s =>
    ⟨'0' :: 'x' :: s.data.foldr
      (fun c acc => hexDigitChar (c.toNat / 16 % 16) :: hexDigitChar (c.toNat % 16) :: acc) []⟩

/-- Decidable form of the result-format invariant: a `0x`-prefixed string of an
even number of lowercase hex digits. -/
def isCanonicalLowerHex (s : String) : Bool :=
  match s.data with
  | '0' :: 'x' :: ds => ds.length % 2 == 0 && ds.all isLowerHexDigit
  | _ => false

/-- The block object returned by viem's `getBlock`, as consumed by
`proof-generator.ts`: the encoder-relevant fields plus the block hash and the
chain-specific optional `sendRoot` (`none` when the property is absent from
the response). -/
structure FetchedBlock extends RpcBlockHeader where
  hash : String
  sendRoot : Option String
deriving DecidableEq

/-- One `storageProof` entry of an `eth_getProof` response: the trie node list
and the slot value (a bigint after viem formatting). -/
structure StorageEntry where
  proof : List String
  value : Nat
deriving DecidableEq

/-- An `eth_getProof` response: account-proof node list and storage-proof
entries. -/
structure EthProof where
  accountProof : List String
  storageProof : List StorageEntry
deriving DecidableEq

/-- The RPC collaborator (spec §6): block fetch, the optional raw-header fast
path (`Except.error` models any failure of the `debug_getRawHeader` call), and
the proof fetch, keyed by account, storage-key list, and block number exactly
as the JSON-RPC request is. Transport failures of `getBlock`/`getProof`
propagate to the caller unmodified and are outside the claims, so those two
calls are modelled as total. -/
structure RpcOracle where
  getBlock : Nat → FetchedBlock
  rawHeader : Nat → Except Unit String
  getProof : String → List String → Nat → EthProof

/-- Which method produced the header RLP. -/
inductive HeaderMethod where
  | debugGetRawHeader
  | manual
deriving DecidableEq

/-- The error taxonomy of `src/core/types.ts` (spec §7): the two mismatch
errors with their `expected`/`computed` payloads, and the never-raised
`RpcMethodNotAvailableError`. -/
inductive ProofError where
  | blockHashMismatch (expected computed : String)
  | stateRootMismatch (expected computed : String)
  | rpcMethodNotAvailable (method : String)
deriving DecidableEq

/-- The `StorageProof` result record of `src/core/types.ts`. -/
structure StorageProofResult where
  blockNumber : String
  blockHash : String
  stateRoot : String
  account : String
  slot : String
  slotValue : String
  rlpBlockHeader : String
  rlpAccountProof : String
  rlpStorageProof : String
  sendRoot : Option String
deriving DecidableEq

/-- The request options of `generateStorageProof` (the RPC endpoint itself is
abstracted into the oracle). -/
structure ProofGeneratorOptions where
  account : String
  slot : Nat
  blockNumber : Nat
deriving DecidableEq

/-- `getRlpBlockHeader` from `src/core/proof-generator.ts`: try
`debug_getRawHeader`; on success return the raw header unmodified, on any
failure fall back to manual encoding of the already-fetched header fields.
`none` models an exception thrown by the fallback encoder itself. -/
def getRlpBlockHeader (oracle : RpcOracle) (blockNumber : Nat) (blockHeader : FetchedBlock) :
    Option (String × HeaderMethod) :=
  match oracle.rawHeader blockNumber with
  | .ok rawHeader => some (rawHeader, .debugGetRawHeader)
  | .error _ =>
    match encodeBlockHeaderToRlp blockHeader.toRpcBlockHeader with
    | some rlpHeader => some (rlpHeader, .manual)
    | none => none

/-- The intermediate record returned by `getStorageAndAccountProof`. -/
structure ProofParts where
  rlpAccountProof : String
  rlpStorageProof : String
  slotValue : String
  computedStateRoot : String
deriving DecidableEq

/-- `getStorageAndAccountProof` from `src/core/proof-generator.ts`: call
`eth_getProof` with the 32-byte padded storage key, then take `keccak256` of
`accountProof[0]`, RLP-encode both node lists, and render the slot value.
`none` models the exceptions thrown on an out-of-range slot, an empty
`accountProof`/`storageProof` (indexing `[0]` yields `undefined`), or invalid
hex in a node. -/
def getStorageAndAccountProof (keccak : String → String) (oracle : RpcOracle)
    (account : String) (slot blockNumber : Nat) : Option ProofParts :=
  match numberToHexSize32 slot with
  | none => none
  | some key =>
    let proof := oracle.getProof account [key] blockNumber
    match proof.accountProof with
    | [] => none
    | fstAcc :: _ =>
      match proof.storageProof with
      | [] => none
      | fstStor :: _ =>
        match toRlp proof.accountProof, toRlp fstStor.proof with
        | some rlpAcc, some rlpStor =>
          some { rlpAccountProof := rlpAcc, rlpStorageProof := rlpStor,
                 slotValue := numberToHex fstStor.value,
                 computedStateRoot := keccak fstAcc }
        | _, _ => none

/-- `generateStorageProof` from `src/core/proof-generator.ts`: fetch the
header, resolve its RLP encoding, verify the block hash, fetch the proofs,
verify the state root, and assemble the result (copying `sendRoot` when the
header property exists and is truthy). `some (.error e)` is a thrown domain
error, `none` a non-domain exception. -/
def generateStorageProof (keccak : String → String) (oracle : RpcOracle)
    (options : ProofGeneratorOptions) : Option (Except ProofError StorageProofResult) :=
  let blockHeader := oracle.getBlock options.blockNumber
  match getRlpBlockHeader oracle options.blockNumber blockHeader with
  | none => none
  | some res =>
    let rlpBlockHeader := res.1
    let computedBlockHash := keccak rlpBlockHeader
    if computedBlockHash ≠ blockHeader.hash then
      some (.error (.blockHashMismatch blockHeader.hash computedBlockHash))
    else
      match getStorageAndAccountProof keccak oracle options.account options.slot
              options.blockNumber with
      | none => none
      | some parts =>
        if parts.computedStateRoot ≠ blockHeader.stateRoot then
          some (.error (.stateRootMismatch blockHeader.stateRoot parts.computedStateRoot))
        else
          match numberToHexSize32 options.slot with
          | none => none
          | some slotHex =>
            some (.ok
              { blockNumber := jsToHex blockHeader.number
                blockHash := blockHeader.hash
                stateRoot := blockHeader.stateRoot
                account := options.account
                slot := slotHex
                slotValue := parts.slotValue
                rlpBlockHeader := rlpBlockHeader
                rlpAccountProof := parts.rlpAccountProof
                rlpStorageProof := parts.rlpStorageProof
                sendRoot := match blockHeader.sendRoot with
                  | some s => if s ≠ "" then some s else none
                  | none => none })

/-! ### Lemmas about hex digits and the minimal hex printer -/

theorem hexCharVal_hexDigitChar {m : Nat} (hm : m < 16) :
    hexCharVal (hexDigitChar m) = some m := by
  interval_cases m <;> decide

theorem isLowerHexDigit_hexDigitChar {m : Nat} (hm : m < 16) :
    isLowerHexDigit (hexDigitChar m) = true := by
  interval_cases m <;> decide

theorem hexValD_hexDigitChar {m : Nat} (hm : m < 16) :
    hexValD (hexDigitChar m) = m := by
  interval_cases m <;> decide

theorem hexDigitChar_ne_zero_char {m : Nat} (hm : m < 16) (h : m ≠ 0) :
    hexDigitChar m ≠ '0' := by
  interval_cases m <;> simp_all <;> decide

theorem natToHexRevFuel_congr :
    ∀ f1 f2 n, n ≤ f1 → n ≤ f2 → natToHexRevFuel f1 n = natToHexRevFuel f2 n := by
  intro f1
  induction f1 with
  | zero =>
    intro f2 n h1 _
    interval_cases n
    cases f2 <;> simp [natToHexRevFuel]
  | succ f ih =>
    intro f2 n h1 h2
    by_cases hn : n = 0
    · subst hn
      cases f2 <;> simp [natToHexRevFuel]
    · have hpos : 0 < n := Nat.pos_of_ne_zero hn
      cases f2 with
      | zero => omega
      | succ f2' =>
        simp only [natToHexRevFuel, if_neg hn]
        have hdiv : n / 16 < n := Nat.div_lt_self hpos (by norm_num)
        exact congrArg _ (ih f2' (n / 16) (by omega) (by omega))

theorem natToHexRev_eq (n : Nat) :
    natToHexRev n = if n = 0 then [] else hexDigitChar (n % 16) :: natToHexRev (n / 16) := by
  by_cases hn : n = 0
  · subst hn; simp [natToHexRev, natToHexRevFuel]
  · cases n with
    | zero => exact absurd rfl hn
    | succ m =>
      simp only [natToHexRev, natToHexRevFuel, if_neg hn]
      refine congrArg _ (natToHexRevFuel_congr m ((m + 1) / 16) ((m + 1) / 16) ?_ le_rfl)
      have : (m + 1) / 16 < m + 1 := Nat.div_lt_self (Nat.succ_pos m) (by norm_num)
      omega

theorem natToHexRev_ne_nil {n : Nat} (hn : n ≠ 0) : natToHexRev n ≠ [] := by
  rw [natToHexRev_eq, if_neg hn]
  simp

theorem natToHexRev_mem_lower {n : Nat} :
    ∀ c ∈ natToHexRev n, isLowerHexDigit c = true := by
  induction n using Nat.strong_induction_on with
  | _ n ih =>
    intro c hc
    rw [natToHexRev_eq] at hc
    by_cases hn : n = 0
    · simp [hn] at hc
    · rw [if_neg hn] at hc
      rcases List.mem_cons.mp hc with h | h
      · subst h
        exact isLowerHexDigit_hexDigitChar (Nat.mod_lt _ (by norm_num))
      · exact ih (n / 16) (Nat.div_lt_self (Nat.pos_of_ne_zero hn) (by norm_num)) c h

theorem natToHexRev_getLast {n : Nat} (hn : n ≠ 0) :
    ∃ c, (natToHexRev n).getLast? = some c ∧ hexValD c ≠ 0 ∧ c ≠ '0' := by
  induction n using Nat.strong_induction_on with
  | _ n ih =>
    rw [natToHexRev_eq, if_neg hn]
    by_cases hq : n / 16 = 0
    · have hlt : n < 16 := by omega
      have hmod : n % 16 = n := Nat.mod_eq_of_lt hlt
      refine ⟨hexDigitChar (n % 16), ?_, ?_, ?_⟩
      · rw [natToHexRev_eq, if_pos hq]; rfl
      · rw [hmod, hexValD_hexDigitChar hlt]; exact hn
      · rw [hmod]; exact hexDigitChar_ne_zero_char hlt hn
    · obtain ⟨c, hc, hv, h0⟩ :=
        ih (n / 16) (Nat.div_lt_self (Nat.pos_of_ne_zero hn) (by norm_num)) hq
      refine ⟨c, ?_, hv, h0⟩
      have hne := natToHexRev_ne_nil hq
      cases htail : natToHexRev (n / 16) with
      | nil => exact absurd htail hne
      | cons a l =>
        rw [List.getLast?_cons_cons, ← htail]
        exact hc

theorem hexStrVal_cons_zero (l : List Char) : hexStrVal ('0' :: l) = hexStrVal l := by
  simp [hexStrVal, List.foldl_cons]
  rfl

theorem hexStrVal_reverse_natToHexRev (n : Nat) :
    hexStrVal (natToHexRev n).reverse = n := by
  induction n using Nat.strong_induction_on with
  | _ n ih =>
    rw [natToHexRev_eq]
    by_cases hn : n = 0
    · simp [hn, hexStrVal]
    · rw [if_neg hn]
      have hdiv : n / 16 < n := Nat.div_lt_self (Nat.pos_of_ne_zero hn) (by norm_num)
      simp only [List.reverse_cons, hexStrVal, List.foldl_append, List.foldl_cons,
        List.foldl_nil]
      have hrec : (natToHexRev (n / 16)).reverse.foldl
          (fun acc c => 16 * acc + hexValD c) 0 = n / 16 := ih (n / 16) hdiv
      rw [hrec, hexValD_hexDigitChar (Nat.mod_lt _ (by norm_num))]
      omega

theorem toString16_data (n : Nat) :
    (toString16 n).data = if n = 0 then ['0'] else (natToHexRev n).reverse := by
  by_cases hn : n = 0 <;> simp [toString16, hn]

theorem toString16_mem_lower (n : Nat) :
    ∀ c ∈ (toString16 n).data, isLowerHexDigit c = true := by
  intro c hc
  rw [toString16_data] at hc
  by_cases hn : n = 0
  · rw [if_pos hn] at hc; simp at hc; subst hc; decide
  · rw [if_neg hn] at hc
    exact natToHexRev_mem_lower c (List.mem_reverse.mp hc)

theorem stripHexMarker_of_head_ne {l : List Char} (h : l.head? ≠ some '0') :
    stripHexMarker l = l := by
  unfold stripHexMarker
  split
  · simp_all
  · rfl

theorem cleanHex_toString16 {v : Nat} (hv : v ≠ 0) :
    cleanHex (toString16 v) = ⟨'0' :: 'x' :: padEvenChars ((natToHexRev v).reverse)⟩ := by
  obtain ⟨c, hc, _, h0⟩ := natToHexRev_getLast hv
  have hhead : ((natToHexRev v).reverse).head? = some c := by
    rw [List.head?_reverse]; exact hc
  have hne0 : ((natToHexRev v).reverse).head? ≠ some '0' := by
    rw [hhead]; intro h; exact h0 (Option.some.inj h)
  unfold cleanHex
  rw [toString16_data, if_neg hv, stripHexMarker_of_head_ne hne0]

/-- C2. For every integer-typed header field (`baseHeaderFields` and the
trailing chunks show that `difficulty`, `number`, `gasLimit`, `gasUsed`,
`timestamp`, `baseFeePerGas`, `blobGasUsed` and `excessBlobGas` all pass
through `encodeInt`), the encoder
emits the minimal big-endian byte string: value `0` becomes the RLP
empty-string item `"0x"` (not a zero byte), value `255` becomes the single
byte `0xff`, and for any non-zero value the digit string is even-length
lowercase hex that decodes back to the value with a non-zero leading byte
(the leading byte being the value of the first two hex digits). -/
theorem C2_integer_encoding_minimal (hex : JsVal) (v : Nat) (hv : jsBigInt hex = some v) :
    (v = 0 → encodeInt hex = some "0x") ∧
    (v = 255 → encodeInt hex = some "0xff") ∧
    (v ≠ 0 → ∃ d1 d2 rest, encodeInt hex = some (String.mk ('0' :: 'x' :: d1 :: d2 :: rest)) ∧
      (d1 :: d2 :: rest).length % 2 = 0 ∧
      hexStrVal (d1 :: d2 :: rest) = v ∧
      16 * hexValD d1 + hexValD d2 ≠ 0 ∧
      (∀ c ∈ d1 :: d2 :: rest, isLowerHexDigit c = true)) := by
  refine ⟨?_, ?_, ?_⟩
  · intro h0; simp [encodeInt, hv, h0]
  · intro h255; subst h255
    simp only [encodeInt, hv]
    decide
  · intro hne
    have hdata : encodeInt hex =
        some (String.mk ('0' :: 'x' :: padEvenChars ((natToHexRev v).reverse))) := by
      have h1 : encodeInt hex = some (cleanHex (toString16 v)) := by
        simp [encodeInt, hv, hne]
      rw [h1, cleanHex_toString16 hne]
    obtain ⟨c, hc, hcv, h0⟩ := natToHexRev_getLast hne
    have hhead : ((natToHexRev v).reverse).head? = some c := by
      rw [List.head?_reverse]; exact hc
    obtain ⟨tail, htail⟩ : ∃ t, (natToHexRev v).reverse = c :: t := by
      cases hrev : (natToHexRev v).reverse with
      | nil => rw [hrev] at hhead; simp at hhead
      | cons a t =>
        rw [hrev] at hhead
        simp only [List.head?_cons, Option.some.injEq] at hhead
        exact ⟨t, by rw [hhead]⟩
    have hlower : ∀ x ∈ (natToHexRev v).reverse, isLowerHexDigit x = true :=
      fun x hx => natToHexRev_mem_lower x (List.mem_reverse.mp hx)
    have hval : hexStrVal ((natToHexRev v).reverse) = v := hexStrVal_reverse_natToHexRev v
    by_cases hpar : ((natToHexRev v).reverse).length % 2 = 0
    · have hpad : padEvenChars ((natToHexRev v).reverse) = (natToHexRev v).reverse := by
        unfold padEvenChars; rw [if_pos hpar]
      obtain ⟨d2, rest, hrest⟩ : ∃ d2 rest, tail = d2 :: rest := by
        cases tail with
        | nil => rw [htail] at hpar; simp at hpar
        | cons d2 rest => exact ⟨d2, rest, rfl⟩
      refine ⟨c, d2, rest, ?_, ?_, ?_, ?_, ?_⟩
      · rw [hdata, hpad, htail, hrest]
      · rw [← hrest, ← htail]; exact hpar
      · rw [← hrest, ← htail]; exact hval
      · omega
      · intro x hx; apply hlower; rw [htail, hrest]; exact hx
    · have hpad : padEvenChars ((natToHexRev v).reverse) = '0' :: (natToHexRev v).reverse := by
        unfold padEvenChars; rw [if_neg hpar]
      refine ⟨'0', c, tail, ?_, ?_, ?_, ?_, ?_⟩
      · rw [hdata, hpad, htail]
      · rw [htail] at hpar
        simp only [List.length_cons] at hpar ⊢
        omega
      · rw [← htail, hexStrVal_cons_zero]; exact hval
      · have h00 : hexValD '0' = 0 := by decide
        rw [h00]; omega
      · intro x hx
        rcases List.mem_cons.mp hx with h | h
        · subst h; decide
        · apply hlower; rw [htail]; exact h

/-- Witness for C2 at the concrete literal `"0xff"` (value 255). -/
theorem C2_witness :
    (255 = 0 → encodeInt (JsVal.str "0xff") = some "0x") ∧
    (255 = 255 → encodeInt (JsVal.str "0xff") = some "0xff") ∧
    (255 ≠ 0 → ∃ d1 d2 rest,
      encodeInt (JsVal.str "0xff") = some (String.mk ('0' :: 'x' :: d1 :: d2 :: rest)) ∧
      (d1 :: d2 :: rest).length % 2 = 0 ∧
      hexStrVal (d1 :: d2 :: rest) = 255 ∧
      16 * hexValD d1 + hexValD d2 ≠ 0 ∧
      (∀ c ∈ d1 :: d2 :: rest, isLowerHexDigit c = true)) :=
  C2_integer_encoding_minimal (JsVal.str "0xff") 255 (by decide)

/-! ### C1: trailing-field presence and order -/

/-- Pointwise append of two optional lists (`none` absorbs, modelling an
exception anywhere in the construction). -/
def appendO (x y : Option (List String)) : Option (List String) :=
  match x, y with
  | some a, some b => some (a ++ b)
  | _, _ => none

/-- The items a truthiness-gated optional integer field contributes. -/
def chunkIntTruthy (f : Option JsVal) : Option (List String) :=
  match f with
  | none => some []
  | some v =>
    if jsTruthy v then
      match encodeInt v with
      | some e => some [e]
      | none => none
    else some []

/-- The items a presence-gated (`!== undefined`) optional integer field
contributes. -/
def chunkIntDefined (f : Option JsVal) : Option (List String) :=
  match f with
  | none => some []
  | some v =>
    match encodeInt v with
    | some e => some [e]
    | none => none

/-- The items a truthiness-gated optional byte-string field contributes. -/
def chunkStrTruthy (f : Option String) : Option (List String) :=
  match f with
  | none => some []
  | some s => if s != "" then some [cleanHex s] else some []

/-- The complete trailing segment of the header field list, in the fixed order
`baseFeePerGas`, `withdrawalsRoot`, `blobGasUsed`, `excessBlobGas`,
`parentBeaconBlockRoot`, `requestsHash`. -/
def trailingFields (b : RpcBlockHeader) : Option (List String) :=
  appendO (chunkIntTruthy b.baseFeePerGas)
    (appendO (chunkStrTruthy b.withdrawalsRoot)
      (appendO (chunkIntTruthy b.blobGasUsed)
        (appendO (chunkIntDefined b.excessBlobGas)
          (appendO (chunkStrTruthy b.parentBeaconBlockRoot)
            (chunkStrTruthy b.requestsHash)))))

theorem pushIntTruthy_eq_appendO (f : Option JsVal) (acc : Option (List String)) :
    pushIntTruthy f acc = appendO acc (chunkIntTruthy f) := by
  cases acc with
  | none => cases f <;> simp [pushIntTruthy, appendO, chunkIntTruthy]
  | some l =>
    cases f with
    | none => simp [pushIntTruthy, appendO, chunkIntTruthy]
    | some v =>
      by_cases ht : jsTruthy v <;>
        cases he : encodeInt v <;>
          simp [pushIntTruthy, appendO, chunkIntTruthy, ht, he]

theorem pushIntDefined_eq_appendO (f : Option JsVal) (acc : Option (List String)) :
    pushIntDefined f acc = appendO acc (chunkIntDefined f) := by
  cases acc with
  | none => cases f <;> simp [pushIntDefined, appendO, chunkIntDefined]
  | some l =>
    cases f with
    | none => simp [pushIntDefined, appendO, chunkIntDefined]
    | some v =>
      cases he : encodeInt v <;>
        simp [pushIntDefined, appendO, chunkIntDefined, he]

theorem pushStrTruthy_eq_appendO (f : Option String) (acc : Option (List String)) :
    pushStrTruthy f acc = appendO acc (chunkStrTruthy f) := by
  cases acc with
  | none => cases f <;> simp [pushStrTruthy, appendO, chunkStrTruthy]
  | some l =>
    cases f with
    | none => simp [pushStrTruthy, appendO, chunkStrTruthy]
    | some s =>
      by_cases hs : s = "" <;> simp [pushStrTruthy, appendO, chunkStrTruthy, hs]

theorem appendO_assoc (x y z : Option (List String)) :
    appendO (appendO x y) z = appendO x (appendO y z) := by
  cases x <;> cases y <;> cases z <;> simp [appendO]

/-- What the encoder actually does with the trailing fields: the field list is
exactly the fifteen base fields followed by the trailing segment in the fixed
order `baseFeePerGas`, `withdrawalsRoot`, `blobGasUsed`, `excessBlobGas`,
`parentBeaconBlockRoot`, `requestsHash`; presence never depends on the block
number, but it is decided by JavaScript truthiness of the source field, not by
availability alone: an available `baseFeePerGas`/`blobGasUsed` equal to bigint
`0` (or an available empty-string byte field) contributes no item, while
`excessBlobGas` is included whenever the field is present, even when zero. -/
theorem trailing_field_layout (b : RpcBlockHeader) :
    headerFieldsList b = appendO (baseHeaderFields b) (trailingFields b) := by
  unfold headerFieldsList trailingFields
  rw [pushIntTruthy_eq_appendO, pushStrTruthy_eq_appendO, pushIntTruthy_eq_appendO,
    pushIntDefined_eq_appendO, pushStrTruthy_eq_appendO, pushStrTruthy_eq_appendO,
    appendO_assoc, appendO_assoc, appendO_assoc, appendO_assoc, appendO_assoc]

/-- A realistic Cancun-style header as viem delivers it for a block with zero
blobs: `blobGasUsed` is the bigint `0`, `excessBlobGas` the bigint `1`; both
fields are available in the source header. -/
def cexHeaderC1 : RpcBlockHeader :=
  { parentHash := "0x01", sha3Uncles := "0x02", miner := "0x03", stateRoot := "0x04"
    transactionsRoot := "0x05", receiptsRoot := "0x06", logsBloom := "0x07"
    difficulty := .big 0, number := .big 1, gasLimit := .big 0, gasUsed := .big 0
    timestamp := .big 0, extraData := "0x", mixHash := "0x08", nonce := "0x09"
    baseFeePerGas := none, withdrawalsRoot := none, blobGasUsed := some (.big 0)
    excessBlobGas := some (.big 1), parentBeaconBlockRoot := none, requestsHash := none }

/-- C1. The code violates the claim (and its own contract of covering every
fork layout): for `cexHeaderC1` — a realistic zero-blob Cancun header as viem
delivers it — both `blobGasUsed` and `excessBlobGas` are available in the
source header, so the claim demands 15 + 2 = 17 items with an item for
`blobGasUsed`; the encoder produces 16 items, the single trailing item
`"0x01"` being the `excessBlobGas` encoding — the available `blobGasUsed`
(bigint `0`, falsy under the truthiness gate) contributes nothing, so the
encoded header cannot hash to the block hash. -/
theorem C1_zero_blobGasUsed_dropped :
    cexHeaderC1.blobGasUsed = some (JsVal.big 0) ∧
    cexHeaderC1.excessBlobGas = some (JsVal.big 1) ∧
    cexHeaderC1.baseFeePerGas = none ∧
    cexHeaderC1.withdrawalsRoot = none ∧
    cexHeaderC1.parentBeaconBlockRoot = none ∧
    cexHeaderC1.requestsHash = none ∧
    headerFieldsList cexHeaderC1 =
      some ["0x01", "0x02", "0x03", "0x04", "0x05", "0x06", "0x07",
            "0x", "0x01", "0x", "0x", "0x", "0x", "0x08", "0x09", "0x01"] ∧
    (headerFieldsList cexHeaderC1).map List.length = some 16 :=
  ⟨rfl, rfl, rfl, rfl, rfl, rfl, rfl, rfl⟩

/-! ### Characterization lemmas for the proof-assembly pipeline -/

theorem getStorageAndAccountProof_eq_some (keccak : String → String) (oracle : RpcOracle)
    (account : String) (slot blockNumber : Nat) (parts : ProofParts) :
    getStorageAndAccountProof keccak oracle account slot blockNumber = some parts ↔
    ∃ key fstAcc accRest fstStor storRest ra rs,
      numberToHexSize32 slot = some key ∧
      (oracle.getProof account [key] blockNumber).accountProof = fstAcc :: accRest ∧
      (oracle.getProof account [key] blockNumber).storageProof = fstStor :: storRest ∧
      toRlp (oracle.getProof account [key] blockNumber).accountProof = some ra ∧
      toRlp fstStor.proof = some rs ∧
      parts = { rlpAccountProof := ra, rlpStorageProof := rs,
                slotValue := numberToHex fstStor.value,
                computedStateRoot := keccak fstAcc } := by
  constructor
  · intro h
    unfold getStorageAndAccountProof at h
    split at h
    · exact absurd h (by simp)
    · rename_i key hkey
      simp only [] at h
      split at h
      · exact absurd h (by simp)
      · rename_i fstAcc accRest hacc
        split at h
        · exact absurd h (by simp)
        · rename_i fstStor storRest hstor
          split at h
          · rename_i ra rs hra hrs
            exact ⟨key, fstAcc, accRest, fstStor, storRest, ra, rs, hkey, hacc, hstor,
              hra, hrs, (Option.some.inj h).symm⟩
          · exact absurd h (by simp)
  · rintro ⟨key, fstAcc, accRest, fstStor, storRest, ra, rs, hkey, hacc, hstor, hra, hrs,
      hparts⟩
    unfold getStorageAndAccountProof
    rw [hkey]
    simp only []
    rw [hacc] at hra
    simp only [hacc, hstor, hra, hrs, hparts]


theorem generateStorageProof_eq_ok (keccak : String → String) (oracle : RpcOracle)
    (options : ProofGeneratorOptions) (r : StorageProofResult) :
    generateStorageProof keccak oracle options = some (.ok r) ↔
    ∃ rlp m parts slotHex,
      getRlpBlockHeader oracle options.blockNumber (oracle.getBlock options.blockNumber) =
        some (rlp, m) ∧
      keccak rlp = (oracle.getBlock options.blockNumber).hash ∧
      getStorageAndAccountProof keccak oracle options.account options.slot options.blockNumber =
        some parts ∧
      parts.computedStateRoot = (oracle.getBlock options.blockNumber).stateRoot ∧
      numberToHexSize32 options.slot = some slotHex ∧
      r = { blockNumber := jsToHex (oracle.getBlock options.blockNumber).number
            blockHash := (oracle.getBlock options.blockNumber).hash
            stateRoot := (oracle.getBlock options.blockNumber).stateRoot
            account := options.account
            slot := slotHex
            slotValue := parts.slotValue
            rlpBlockHeader := rlp
            rlpAccountProof := parts.rlpAccountProof
            rlpStorageProof := parts.rlpStorageProof
            sendRoot := match (oracle.getBlock options.blockNumber).sendRoot with
              | some s => if s ≠ "" then some s else none
              | none => none } := by
  constructor
  · intro h
    unfold generateStorageProof at h
    simp only [] at h
    split at h
    · exact absurd h (by simp)
    · rename_i res hres
      split at h
      · exact absurd h (by simp)
      · rename_i hmatch
        rw [not_not] at hmatch
        split at h
        · exact absurd h (by simp)
        · rename_i parts hparts
          split at h
          · exact absurd h (by simp)
          · rename_i hroot
            rw [not_not] at hroot
            split at h
            · exact absurd h (by simp)
            · rename_i slotHex hslot
              refine ⟨res.1, res.2, parts, slotHex, by simpa using hres, hmatch, hparts,
                hroot, hslot, (Except.ok.inj (Option.some.inj h)).symm⟩
  · rintro ⟨rlp, m, parts, slotHex, hres, hmatch, hparts, hroot, hslot, hr⟩
    unfold generateStorageProof
    simp only [hres, hparts, hslot]
    rw [hr]
    simp [hmatch, hroot]

theorem generateStorageProof_eq_blockHashMismatch (keccak : String → String)
    (oracle : RpcOracle) (options : ProofGeneratorOptions) (e c : String) :
    generateStorageProof keccak oracle options =
      some (.error (.blockHashMismatch e c)) ↔
    ∃ rlp m,
      getRlpBlockHeader oracle options.blockNumber (oracle.getBlock options.blockNumber) =
        some (rlp, m) ∧
      keccak rlp ≠ (oracle.getBlock options.blockNumber).hash ∧
      e = (oracle.getBlock options.blockNumber).hash ∧ c = keccak rlp := by
  constructor
  · intro h
    unfold generateStorageProof at h
    simp only [] at h
    split at h
    · exact absurd h (by simp)
    · rename_i res hres
      split at h
      · rename_i hne
        obtain ⟨he, hc⟩ := ProofError.blockHashMismatch.inj (Except.error.inj (Option.some.inj h))
        exact ⟨res.1, res.2, by simpa using hres, hne, he.symm, hc.symm⟩
      · split at h
        · exact absurd h (by simp)
        · rename_i parts hparts
          split at h
          · exact absurd (Except.error.inj (Option.some.inj h)) (by intro hx; cases hx)
          · split at h <;> exact absurd h (by simp)
  · rintro ⟨rlp, m, hres, hne, he, hc⟩
    unfold generateStorageProof
    simp only [hres]
    rw [if_pos hne, he, hc]

theorem generateStorageProof_eq_stateRootMismatch (keccak : String → String)
    (oracle : RpcOracle) (options : ProofGeneratorOptions) (e c : String) :
    generateStorageProof keccak oracle options =
      some (.error (.stateRootMismatch e c)) ↔
    ∃ rlp m parts,
      getRlpBlockHeader oracle options.blockNumber (oracle.getBlock options.blockNumber) =
        some (rlp, m) ∧
      keccak rlp = (oracle.getBlock options.blockNumber).hash ∧
      getStorageAndAccountProof keccak oracle options.account options.slot options.blockNumber =
        some parts ∧
      parts.computedStateRoot ≠ (oracle.getBlock options.blockNumber).stateRoot ∧
      e = (oracle.getBlock options.blockNumber).stateRoot ∧
      c = parts.computedStateRoot := by
  constructor
  · intro h
    unfold generateStorageProof at h
    simp only [] at h
    split at h
    · exact absurd h (by simp)
    · rename_i res hres
      split at h
      · exact absurd (Except.error.inj (Option.some.inj h)) (by intro hx; cases hx)
      · rename_i hmatch
        rw [not_not] at hmatch
        split at h
        · exact absurd h (by simp)
        · rename_i parts hparts
          split at h
          · rename_i hroot
            obtain ⟨he, hc⟩ :=
              ProofError.stateRootMismatch.inj (Except.error.inj (Option.some.inj h))
            exact ⟨res.1, res.2, parts, by simpa using hres, hmatch, hparts, hroot,
              he.symm, hc.symm⟩
          · split at h <;> exact absurd h (by simp)
  · rintro ⟨rlp, m, parts, hres, hmatch, hparts, hroot, he, hc⟩
    unfold generateStorageProof
    simp only [hres, hparts]
    simp only [hmatch, ne_eq, not_true_eq_false, if_false, ite_false]
    rw [if_pos hroot, he, hc]

theorem generateStorageProof_error_kinds (keccak : String → String) (oracle : RpcOracle)
    (options : ProofGeneratorOptions) (e : ProofError) :
    generateStorageProof keccak oracle options = some (.error e) →
    (∃ x y, e = .blockHashMismatch x y) ∨ (∃ x y, e = .stateRootMismatch x y) := by
  intro h
  unfold generateStorageProof at h
  simp only [] at h
  split at h
  · exact absurd h (by simp)
  · rename_i res hres
    split at h
    · exact Or.inl ⟨_, _, (Except.error.inj (Option.some.inj h)).symm⟩
    · split at h
      · exact absurd h (by simp)
      · rename_i parts hparts
        split at h
        · exact Or.inr ⟨_, _, (Except.error.inj (Option.some.inj h)).symm⟩
        · split at h <;> exact absurd h (by simp)

theorem generateStorageProof_none_of_empty (keccak : String → String) (oracle : RpcOracle)
    (options : ProofGeneratorOptions) (rlp : String) (m : HeaderMethod) (key : String)
    (hres : getRlpBlockHeader oracle options.blockNumber
      (oracle.getBlock options.blockNumber) = some (rlp, m))
    (hmatch : keccak rlp = (oracle.getBlock options.blockNumber).hash)
    (hkey : numberToHexSize32 options.slot = some key)
    (hempty : (oracle.getProof options.account [key] options.blockNumber).accountProof = [] ∨
      (oracle.getProof options.account [key] options.blockNumber).storageProof = []) :
    generateStorageProof keccak oracle options = none := by
  have hpartsnone : getStorageAndAccountProof keccak oracle options.account options.slot
      options.blockNumber = none := by
    unfold getStorageAndAccountProof
    rw [hkey]
    simp only []
    rcases hempty with hemp | hemp
    · rw [hemp]
    · rw [hemp]
      cases (oracle.getProof options.account [key] options.blockNumber).accountProof with
      | nil => rfl
      | cons a l => rfl
  unfold generateStorageProof
  simp only [hres, hpartsnone]
  simp only [hmatch, ne_eq, not_true_eq_false, if_false, ite_false]

/-! ### Concrete fixtures for witnesses and counterexamples -/

/-- A concrete stand-in for `keccak256`, chosen so that the fixture runs below
exercise both verification outcomes. -/
def kTest : String → String := fun s =>
  if s = "0xaa" then "0xbb" else if s = "0xdd" then "0xee" else "0x99"

/-- A concrete fetched block whose hash and state root fit `kTest`. -/
def hdrOk : FetchedBlock :=
  { parentHash := "0x01", sha3Uncles := "0x02", miner := "0x03", stateRoot := "0xee"
    transactionsRoot := "0x04", receiptsRoot := "0x05", logsBloom := "0x06"
    difficulty := .big 0, number := .big 3, gasLimit := .big 0, gasUsed := .big 0
    timestamp := .big 0, extraData := "0x", mixHash := "0x07", nonce := "0x08"
    baseFeePerGas := none, withdrawalsRoot := none, blobGasUsed := none
    excessBlobGas := none, parentBeaconBlockRoot := none, requestsHash := none
    hash := "0xbb", sendRoot := none }

/-- A concrete `eth_getProof` response consistent with `hdrOk` under `kTest`. -/
def proofOk : EthProof :=
  { accountProof := ["0xdd"], storageProof := [{ proof := ["0xdd"], value := 1 }] }

/-- An oracle for the all-checks-pass run (raw header fast path succeeds). -/
def oracleOk : RpcOracle :=
  { getBlock := fun _ => hdrOk, rawHeader := fun _ => .ok "0xaa",
    getProof := fun _ _ _ => proofOk }

/-- A request whose account address is supplied in mixed (checksummed) case. -/
def optsA : ProofGeneratorOptions := { account := "0xAbCd", slot := 0, blockNumber := 5 }

/-- The 32-byte zero-padded storage key for slot `0`. -/
def slotKeyZero : String := "0x0000000000000000000000000000000000000000000000000000000000000000"

/-- Like `oracleOk` but the raw-header fast path fails. -/
def oracleManual : RpcOracle := { oracleOk with rawHeader := fun _ => .error () }

/-- Like `oracleOk` but the raw header hashes to the wrong value. -/
def oracleBadHash : RpcOracle := { oracleOk with rawHeader := fun _ => .ok "0xf0" }

/-- Like `oracleOk` but the account-proof root does not match the state root. -/
def oracleBadRoot : RpcOracle :=
  { oracleOk with getProof := fun _ _ _ =>
      { accountProof := ["0x11"], storageProof := [{ proof := ["0xdd"], value := 1 }] } }

/-- Like `oracleOk` but `eth_getProof` returns empty node lists. -/
def oracleEmpty : RpcOracle :=
  { oracleOk with getProof := fun _ _ _ => { accountProof := [], storageProof := [] } }

/-- Like `oracleOk` but the block carries an Arbitrum-style `sendRoot`. -/
def oracleSend : RpcOracle :=
  { oracleOk with getBlock := fun _ => { hdrOk with sendRoot := some "0xab" } }

/-- The result record produced by the `oracleOk` run. -/
def resultOk : StorageProofResult :=
  { blockNumber := "0x3", blockHash := "0xbb", stateRoot := "0xee", account := "0xAbCd"
    slot := slotKeyZero, slotValue := "0x1", rlpBlockHeader := "0xaa"
    rlpAccountProof := "0xc281dd", rlpStorageProof := "0xc281dd", sendRoot := none }

/-- The result record produced by the `oracleSend` run. -/
def resultSend : StorageProofResult := { resultOk with sendRoot := some "0xab" }

/-! ### C3, C4: the two verification checks -/

/-- C3. With the resolved RLP block header `rlp`, `generateStorageProof` raises
the block-hash-mismatch error if and only if `keccak256` of `rlp` differs
(as a hex string, compared verbatim) from the block hash returned by the header
fetch; the raised error carries the RPC-reported hash as `expected` and the
locally computed hash as `computed`, both unmodified. On match the call
proceeds past this check. -/
theorem C3_block_hash_verification (keccak : String → String) (oracle : RpcOracle)
    (options : ProofGeneratorOptions) (rlp : String) (m : HeaderMethod)
    (hres : getRlpBlockHeader oracle options.blockNumber
      (oracle.getBlock options.blockNumber) = some (rlp, m)) :
    ((keccak rlp ≠ (oracle.getBlock options.blockNumber).hash) ↔
      ∃ e c, generateStorageProof keccak oracle options =
        some (.error (.blockHashMismatch e c))) ∧
    (∀ e c, generateStorageProof keccak oracle options =
        some (.error (.blockHashMismatch e c)) →
      e = (oracle.getBlock options.blockNumber).hash ∧ c = keccak rlp) := by
  constructor
  · constructor
    · intro hne
      exact ⟨(oracle.getBlock options.blockNumber).hash, keccak rlp,
        (generateStorageProof_eq_blockHashMismatch keccak oracle options _ _).mpr
          ⟨rlp, m, hres, hne, rfl, rfl⟩⟩
    · rintro ⟨e, c, h⟩
      obtain ⟨rlp2, m2, hres2, hne2, _, _⟩ :=
        (generateStorageProof_eq_blockHashMismatch keccak oracle options e c).mp h
      rw [hres] at hres2
      obtain ⟨h1, _⟩ := Prod.mk.inj (Option.some.inj hres2)
      rw [h1]
      exact hne2
  · intro e c h
    obtain ⟨rlp2, m2, hres2, hne2, he, hc⟩ :=
      (generateStorageProof_eq_blockHashMismatch keccak oracle options e c).mp h
    rw [hres] at hres2
    obtain ⟨h1, _⟩ := Prod.mk.inj (Option.some.inj hres2)
    exact ⟨he, by rw [hc, h1]⟩

/-- Witness for C3 at the `oracleBadHash` fixture: the fast path returns
`"0xf0"`, which `kTest` hashes to `"0x99"`, different from the reported hash
`"0xbb"`. -/
theorem C3_witness :
    ((kTest "0xf0" ≠ (oracleBadHash.getBlock optsA.blockNumber).hash) ↔
      ∃ e c, generateStorageProof kTest oracleBadHash optsA =
        some (.error (.blockHashMismatch e c))) ∧
    (∀ e c, generateStorageProof kTest oracleBadHash optsA =
        some (.error (.blockHashMismatch e c)) →
      e = (oracleBadHash.getBlock optsA.blockNumber).hash ∧ c = kTest "0xf0") :=
  C3_block_hash_verification kTest oracleBadHash optsA "0xf0"
    HeaderMethod.debugGetRawHeader rfl

/-- C4. With the `eth_getProof` response decomposed, the account-trie root is
computed as `keccak256` of the first element of the account-proof node list,
and (the block-hash check having passed) the state-root-mismatch error is
raised if and only if that computed root differs from the fetched header's
declared `stateRoot`, carrying the header's `stateRoot` as `expected` and the
computed root as `computed`. -/
theorem C4_state_root_verification (keccak : String → String) (oracle : RpcOracle)
    (options : ProofGeneratorOptions) (rlp : String) (m : HeaderMethod) (key : String)
    (fstAcc : String) (accRest : List String) (fstStor : StorageEntry)
    (storRest : List StorageEntry) (ra rs : String)
    (hres : getRlpBlockHeader oracle options.blockNumber
      (oracle.getBlock options.blockNumber) = some (rlp, m))
    (hmatch : keccak rlp = (oracle.getBlock options.blockNumber).hash)
    (hkey : numberToHexSize32 options.slot = some key)
    (hacc : (oracle.getProof options.account [key] options.blockNumber).accountProof =
      fstAcc :: accRest)
    (hstor : (oracle.getProof options.account [key] options.blockNumber).storageProof =
      fstStor :: storRest)
    (hra : toRlp (oracle.getProof options.account [key] options.blockNumber).accountProof =
      some ra)
    (hrs : toRlp fstStor.proof = some rs) :
    ((keccak fstAcc ≠ (oracle.getBlock options.blockNumber).stateRoot) ↔
      ∃ e c, generateStorageProof keccak oracle options =
        some (.error (.stateRootMismatch e c))) ∧
    (∀ e c, generateStorageProof keccak oracle options =
        some (.error (.stateRootMismatch e c)) →
      e = (oracle.getBlock options.blockNumber).stateRoot ∧ c = keccak fstAcc) := by
  have hparts : getStorageAndAccountProof keccak oracle options.account options.slot
      options.blockNumber = some
        { rlpAccountProof := ra, rlpStorageProof := rs,
          slotValue := numberToHex fstStor.value, computedStateRoot := keccak fstAcc } :=
    (getStorageAndAccountProof_eq_some keccak oracle options.account options.slot
      options.blockNumber _).mpr
      ⟨key, fstAcc, accRest, fstStor, storRest, ra, rs, hkey, hacc, hstor, hra, hrs, rfl⟩
  constructor
  · constructor
    · intro hne
      exact ⟨(oracle.getBlock options.blockNumber).stateRoot, keccak fstAcc,
        (generateStorageProof_eq_stateRootMismatch keccak oracle options _ _).mpr
          ⟨rlp, m, _, hres, hmatch, hparts, hne, rfl, rfl⟩⟩
    · rintro ⟨e, c, h⟩
      obtain ⟨rlp2, m2, parts2, hres2, hmatch2, hparts2, hroot2, _, _⟩ :=
        (generateStorageProof_eq_stateRootMismatch keccak oracle options e c).mp h
      rw [hparts] at hparts2
      have hp2 := Option.some.inj hparts2
      rw [← hp2] at hroot2
      exact hroot2
  · intro e c h
    obtain ⟨rlp2, m2, parts2, hres2, hmatch2, hparts2, hroot2, he, hc⟩ :=
      (generateStorageProof_eq_stateRootMismatch keccak oracle options e c).mp h
    rw [hparts] at hparts2
    have hp2 := Option.some.inj hparts2
    rw [← hp2] at hc
    exact ⟨he, hc⟩

/-- Witness for C4 at the `oracleBadRoot` fixture: `keccak256` of the first
account-proof node `"0x11"` is `"0x99"`, different from the declared state
root `"0xee"`. -/
theorem C4_witness :
    ((kTest "0x11" ≠ (oracleBadRoot.getBlock optsA.blockNumber).stateRoot) ↔
      ∃ e c, generateStorageProof kTest oracleBadRoot optsA =
        some (.error (.stateRootMismatch e c))) ∧
    (∀ e c, generateStorageProof kTest oracleBadRoot optsA =
        some (.error (.stateRootMismatch e c)) →
      e = (oracleBadRoot.getBlock optsA.blockNumber).stateRoot ∧ c = kTest "0x11") :=
  C4_state_root_verification kTest oracleBadRoot optsA "0xaa"
    HeaderMethod.debugGetRawHeader slotKeyZero "0x11" []
    { proof := ["0xdd"], value := 1 } [] "0xc111" "0xc281dd"
    rfl rfl rfl rfl rfl rfl rfl

/-! ### C5: the header resolver fallback -/

/-- C5. Whenever the raw-header fast path succeeds, its result is returned
unmodified and tagged as the `debug_getRawHeader` method; whenever it fails,
for any reason whatsoever, the resolver returns exactly the output of the
header encoder applied to the already-fetched header fields, tagged as the
`manual` method, and the fast-path failure is never propagated (the only
failure the resolver can propagate is one thrown by the fallback encoder
itself). -/
theorem C5_header_resolver_fallback (oracle : RpcOracle) (blockNumber : Nat)
    (blockHeader : FetchedBlock) :
    (∀ raw, oracle.rawHeader blockNumber = .ok raw →
      getRlpBlockHeader oracle blockNumber blockHeader =
        some (raw, .debugGetRawHeader)) ∧
    (∀ u, oracle.rawHeader blockNumber = .error u →
      getRlpBlockHeader oracle blockNumber blockHeader =
        (encodeBlockHeaderToRlp blockHeader.toRpcBlockHeader).map
          (fun rlpHeader => (rlpHeader, HeaderMethod.manual))) := by
  constructor
  · intro raw hraw
    unfold getRlpBlockHeader
    rw [hraw]
  · intro u hu
    unfold getRlpBlockHeader
    rw [hu]
    cases he : encodeBlockHeaderToRlp blockHeader.toRpcBlockHeader <;> simp [he]

/-- Witness for C5: the raw path of `oracleOk` returns `"0xaa"` tagged raw;
the failing raw path of `oracleManual` yields exactly the manual encoding of
`hdrOk`. -/
theorem C5_witness :
    getRlpBlockHeader oracleOk 5 hdrOk = some ("0xaa", HeaderMethod.debugGetRawHeader) ∧
    getRlpBlockHeader oracleManual 5 hdrOk =
      (encodeBlockHeaderToRlp hdrOk.toRpcBlockHeader).map
        (fun rlpHeader => (rlpHeader, HeaderMethod.manual)) ∧
    getRlpBlockHeader oracleManual 5 hdrOk =
      some ("0xd001020381ee0405068003808080800708", HeaderMethod.manual) :=
  ⟨(C5_header_resolver_fallback oracleOk 5 hdrOk).1 "0xaa" rfl,
   (C5_header_resolver_fallback oracleManual 5 hdrOk).2 () rfl,
   by rw [(C5_header_resolver_fallback oracleManual 5 hdrOk).2 () rfl]; rfl⟩

/-! ### C7, C8, C9, C10: properties of the assembled result -/

/-- C7. Whenever `generateStorageProof` returns without raising an error, the
returned record is fully populated and internally consistent: `keccak256` of
its `rlpBlockHeader` equals its `blockHash` (which is the fetched header's
hash), its `stateRoot` is the header's, `keccak256` of the first account-proof
node equals its `stateRoot`, and `account`, `slot` and `blockNumber`
correspond to the request and the fetched header. -/
theorem C7_success_consistency (keccak : String → String) (oracle : RpcOracle)
    (options : ProofGeneratorOptions) (r : StorageProofResult)
    (h : generateStorageProof keccak oracle options = some (.ok r)) :
    keccak r.rlpBlockHeader = r.blockHash ∧
    r.blockHash = (oracle.getBlock options.blockNumber).hash ∧
    r.stateRoot = (oracle.getBlock options.blockNumber).stateRoot ∧
    r.account = options.account ∧
    numberToHexSize32 options.slot = some r.slot ∧
    r.blockNumber = jsToHex (oracle.getBlock options.blockNumber).number ∧
    (∃ key fstAcc accRest,
      numberToHexSize32 options.slot = some key ∧
      (oracle.getProof options.account [key] options.blockNumber).accountProof =
        fstAcc :: accRest ∧
      keccak fstAcc = r.stateRoot) := by
  obtain ⟨rlp, m, parts, slotHex, hres, hmatch, hparts, hroot, hslot, hr⟩ :=
    (generateStorageProof_eq_ok keccak oracle options r).mp h
  obtain ⟨key, fstAcc, accRest, fstStor, storRest, ra, rs, hkey, hacc, hstor, hra, hrs,
    hpr⟩ :=
    (getStorageAndAccountProof_eq_some keccak oracle options.account options.slot
      options.blockNumber parts).mp hparts
  subst hr
  subst hpr
  exact ⟨hmatch, rfl, rfl, rfl, hslot, rfl, key, fstAcc, accRest, hkey, hacc, hroot⟩

/-- Witness for C7 at the successful `oracleOk` run. -/
theorem C7_witness :
    kTest resultOk.rlpBlockHeader = resultOk.blockHash ∧
    resultOk.blockHash = (oracleOk.getBlock optsA.blockNumber).hash ∧
    resultOk.stateRoot = (oracleOk.getBlock optsA.blockNumber).stateRoot ∧
    resultOk.account = optsA.account ∧
    numberToHexSize32 optsA.slot = some resultOk.slot ∧
    resultOk.blockNumber = jsToHex (oracleOk.getBlock optsA.blockNumber).number ∧
    (∃ key fstAcc accRest,
      numberToHexSize32 optsA.slot = some key ∧
      (oracleOk.getProof optsA.account [key] optsA.blockNumber).accountProof =
        fstAcc :: accRest ∧
      kTest fstAcc = resultOk.stateRoot) :=
  C7_success_consistency kTest oracleOk optsA resultOk rfl

/-- C8. Provided the source header never carries an empty-string send root
(no real chain does), the `sendRoot` field of a successfully returned result
is a verbatim copy of the fetched header's `sendRoot` — in particular it is
present if and only if the header actually carries the field, and it is
omitted (never zeroed) for every header without it. -/
theorem C8_sendRoot_presence (keccak : String → String) (oracle : RpcOracle)
    (options : ProofGeneratorOptions) (r : StorageProofResult)
    (hwf : (oracle.getBlock options.blockNumber).sendRoot ≠ some "")
    (h : generateStorageProof keccak oracle options = some (.ok r)) :
    r.sendRoot = (oracle.getBlock options.blockNumber).sendRoot := by
  obtain ⟨rlp, m, parts, slotHex, hres, hmatch, hparts, hroot, hslot, hr⟩ :=
    (generateStorageProof_eq_ok keccak oracle options r).mp h
  subst hr
  cases hsr : (oracle.getBlock options.blockNumber).sendRoot with
  | none => simp [hsr]
  | some sr =>
    have hs : sr ≠ "" := fun hemp => hwf (by rw [hsr, hemp])
    simp [hsr, hs]

/-- Witness for C8 at the `oracleSend` run, whose block carries
`sendRoot = "0xab"`. -/
theorem C8_witness :
    generateStorageProof kTest oracleSend optsA = some (.ok resultSend) ∧
    resultSend.sendRoot = (oracleSend.getBlock optsA.blockNumber).sendRoot ∧
    (oracleSend.getBlock optsA.blockNumber).sendRoot = some "0xab" :=
  ⟨rfl, C8_sendRoot_presence kTest oracleSend optsA resultSend (by decide) rfl, rfl⟩

theorem numberToHexSize32_eq_some {n : Nat} {key : String}
    (h : numberToHexSize32 n = some key) :
    key.data = '0' :: 'x' ::
      (List.replicate (64 - (toString16 n).data.length) '0' ++ (toString16 n).data) ∧
    key.data.length = 66 := by
  unfold numberToHexSize32 at h
  simp only [] at h
  split at h
  · rename_i hle
    have hk := (Option.some.inj h).symm
    subst hk
    refine ⟨rfl, ?_⟩
    rw [show (String.mk ('0' :: 'x' ::
        (List.replicate (64 - (toString16 n).data.length) '0' ++ (toString16 n).data))).data =
        '0' :: 'x' ::
        (List.replicate (64 - (toString16 n).data.length) '0' ++ (toString16 n).data) from rfl,
      List.length_cons, List.length_cons, List.length_append, List.length_replicate]
    omega
  · exact absurd h (by simp)

/-- C9. The `slot` field of a successfully returned result is the requested
slot hex-normalized to exactly 32 bytes big-endian (66 characters with the
`0x` prefix, minimal digits left-padded with zeros), and the same padded key
is the storage key used in the `eth_getProof` request: the outcome of
`generateStorageProof` depends on `getProof` only through its value at that
key. -/
theorem C9_slot_key_padding (keccak : String → String) (oracle : RpcOracle)
    (options : ProofGeneratorOptions) (r : StorageProofResult) :
    (generateStorageProof keccak oracle options = some (.ok r) →
      ∃ key, numberToHexSize32 options.slot = some key ∧ r.slot = key ∧
        key.data = '0' :: 'x' ::
          (List.replicate (64 - (toString16 options.slot).data.length) '0' ++
            (toString16 options.slot).data) ∧
        key.data.length = 66) ∧
    (∀ oracle2 : RpcOracle, oracle.getBlock = oracle2.getBlock →
      oracle.rawHeader = oracle2.rawHeader →
      (∀ key, numberToHexSize32 options.slot = some key →
        oracle.getProof options.account [key] options.blockNumber =
          oracle2.getProof options.account [key] options.blockNumber) →
      generateStorageProof keccak oracle options =
        generateStorageProof keccak oracle2 options) := by
  constructor
  · intro h
    obtain ⟨rlp, m, parts, slotHex, hres, hmatch, hparts, hroot, hslot, hr⟩ :=
      (generateStorageProof_eq_ok keccak oracle options r).mp h
    subst hr
    obtain ⟨hdata, hlen⟩ := numberToHexSize32_eq_some hslot
    exact ⟨slotHex, hslot, rfl, hdata, hlen⟩
  · intro oracle2 hgb hrh hp
    unfold generateStorageProof getRlpBlockHeader getStorageAndAccountProof
    rw [hgb, hrh]
    cases hk : numberToHexSize32 options.slot with
    | none => simp only [hk]
    | some key => simp only [hk, hp key hk]

/-- Witness for C9 at the `oracleOk` run with slot `0`: the key is `0x`
followed by 64 zero digits. -/
theorem C9_witness :
    ∃ key, numberToHexSize32 optsA.slot = some key ∧ resultOk.slot = key ∧
      key.data = '0' :: 'x' ::
        (List.replicate (64 - (toString16 optsA.slot).data.length) '0' ++
          (toString16 optsA.slot).data) ∧
      key.data.length = 66 :=
  (C9_slot_key_padding kTest oracleOk optsA resultOk).1 rfl

/-- C10. The proof lists are indexed without a guard: (i) every domain error
the pipeline can return is one of the two mismatch kinds (the
`RpcMethodNotAvailableError` of the taxonomy is never raised); (ii) when the
block-hash check passes and the returned `accountProof` or `storageProof` list
is empty, the run ends in a non-domain exception (`none`), not in a domain
error; (iii) under the precondition that both lists are non-empty (and the
node hex is well-formed) the accesses are well-defined and the run produces
some outcome. -/
theorem C10_unguarded_first_element (keccak : String → String) (oracle : RpcOracle)
    (options : ProofGeneratorOptions) :
    (∀ e, generateStorageProof keccak oracle options = some (.error e) →
      (∃ x y, e = .blockHashMismatch x y) ∨ (∃ x y, e = .stateRootMismatch x y)) ∧
    (∀ rlp m key,
      getRlpBlockHeader oracle options.blockNumber (oracle.getBlock options.blockNumber) =
        some (rlp, m) →
      keccak rlp = (oracle.getBlock options.blockNumber).hash →
      numberToHexSize32 options.slot = some key →
      ((oracle.getProof options.account [key] options.blockNumber).accountProof = [] ∨
        (oracle.getProof options.account [key] options.blockNumber).storageProof = []) →
      generateStorageProof keccak oracle options = none) ∧
    (∀ rlp m key fstAcc accRest fstStor storRest ra rs,
      getRlpBlockHeader oracle options.blockNumber (oracle.getBlock options.blockNumber) =
        some (rlp, m) →
      keccak rlp = (oracle.getBlock options.blockNumber).hash →
      numberToHexSize32 options.slot = some key →
      (oracle.getProof options.account [key] options.blockNumber).accountProof =
        fstAcc :: accRest →
      (oracle.getProof options.account [key] options.blockNumber).storageProof =
        fstStor :: storRest →
      toRlp (oracle.getProof options.account [key] options.blockNumber).accountProof =
        some ra →
      toRlp fstStor.proof = some rs →
      generateStorageProof keccak oracle options ≠ none) := by
  refine ⟨generateStorageProof_error_kinds keccak oracle options,
    fun rlp m key hres hmatch hkey hempty =>
      generateStorageProof_none_of_empty keccak oracle options rlp m key hres hmatch hkey
        hempty, ?_⟩
  intro rlp m key fstAcc accRest fstStor storRest ra rs hres hmatch hkey hacc hstor hra hrs
  have hparts : getStorageAndAccountProof keccak oracle options.account options.slot
      options.blockNumber = some
        { rlpAccountProof := ra, rlpStorageProof := rs,
          slotValue := numberToHex fstStor.value, computedStateRoot := keccak fstAcc } :=
    (getStorageAndAccountProof_eq_some keccak oracle options.account options.slot
      options.blockNumber _).mpr
      ⟨key, fstAcc, accRest, fstStor, storRest, ra, rs, hkey, hacc, hstor, hra, hrs, rfl⟩
  unfold generateStorageProof
  simp only [hres, hparts]
  simp only [hmatch, ne_eq, not_true_eq_false, if_false, ite_false]
  split
  · simp
  · simp only [hkey]
    simp

/-- Witness for C10 at the `oracleEmpty` fixture: the hash check passes, both
proof lists are empty, and the run ends in `none` (a non-domain exception). -/
theorem C10_witness :
    generateStorageProof kTest oracleEmpty optsA = none :=
  (C10_unguarded_first_element kTest oracleEmpty optsA).2.1 "0xaa"
    HeaderMethod.debugGetRawHeader slotKeyZero rfl rfl rfl (Or.inl rfl)

/-! ### C6: hex formatting of the result fields -/

theorem bytesToHexChars_even_lower (bs : List Nat) :
    (bs.foldr (fun b acc => hexDigitChar (b / 16 % 16) :: hexDigitChar (b % 16) :: acc)
      []).length % 2 = 0 ∧
    ∀ c ∈ bs.foldr (fun b acc => hexDigitChar (b / 16 % 16) :: hexDigitChar (b % 16) :: acc)
      [], isLowerHexDigit c = true := by
  induction bs with
  | nil => exact ⟨rfl, by simp⟩
  | cons b bs ih =>
    refine ⟨?_, ?_⟩
    · simp only [List.foldr_cons, List.length_cons]
      omega
    · intro c hc
      simp only [List.foldr_cons, List.mem_cons] at hc
      rcases hc with hc | hc | hc
      · exact hc ▸ isLowerHexDigit_hexDigitChar (Nat.mod_lt _ (by norm_num))
      · exact hc ▸ isLowerHexDigit_hexDigitChar (Nat.mod_lt _ (by norm_num))
      · exact ih.2 c hc

theorem isCanonicalLowerHex_bytesToHex (bs : List Nat) :
    isCanonicalLowerHex (bytesToHex bs) = true := by
  obtain ⟨heven, hlower⟩ := bytesToHexChars_even_lower bs
  unfold isCanonicalLowerHex bytesToHex
  simp only [Bool.and_eq_true, beq_iff_eq, List.all_eq_true]
  exact ⟨heven, hlower⟩

theorem toRlp_canonical {items : List String} {s : String} (h : toRlp items = some s) :
    isCanonicalLowerHex s = true := by
  unfold toRlp at h
  split at h
  · exact absurd h (by simp)
  · rename_i bss hbss
    rw [← Option.some.inj h]
    exact isCanonicalLowerHex_bytesToHex _

theorem numberToHexSize32_canonical {n : Nat} {key : String}
    (h : numberToHexSize32 n = some key) : isCanonicalLowerHex key = true := by
  obtain ⟨hdata, hlen⟩ := numberToHexSize32_eq_some h
  rw [hdata] at hlen
  unfold isCanonicalLowerHex
  rw [hdata]
  simp only [Bool.and_eq_true, beq_iff_eq, List.all_eq_true]
  constructor
  · rw [List.length_cons, List.length_cons] at hlen
    omega
  · intro c hc
    rw [List.mem_append] at hc
    rcases hc with hc | hc
    · rw [List.eq_of_mem_replicate hc]; decide
    · exact toString16_mem_lower n c hc

theorem jsToHex_form (v : JsVal) :
    ∃ ds, (jsToHex v).data = '0' :: 'x' :: ds ∧ ∀ c ∈ ds, isLowerHexDigit c = true := by
  cases v with
  | big n => exact ⟨(toString16 n).data, rfl, toString16_mem_lower n⟩
  | str s =>
    refine ⟨_, rfl, ?_⟩
    induction s.data with
    | nil => simp
    | cons c cs ih =>
      intro x hx
      simp only [List.foldr_cons, List.mem_cons] at hx
      rcases hx with hx | hx | hx
      · exact hx ▸ isLowerHexDigit_hexDigitChar (Nat.mod_lt _ (by norm_num))
      · exact hx ▸ isLowerHexDigit_hexDigitChar (Nat.mod_lt _ (by norm_num))
      · exact ih x hx

theorem getRlpBlockHeader_canonical {oracle : RpcOracle} {bn : Nat} {hdr : FetchedBlock}
    {rlp : String} {m : HeaderMethod}
    (hraw : ∀ raw, oracle.rawHeader bn = .ok raw → isCanonicalLowerHex raw = true)
    (h : getRlpBlockHeader oracle bn hdr = some (rlp, m)) :
    isCanonicalLowerHex rlp = true := by
  unfold getRlpBlockHeader at h
  split at h
  · rename_i raw hk
    obtain ⟨h1, _⟩ := Prod.mk.inj (Option.some.inj h)
    exact h1 ▸ hraw raw hk
  · rename_i u hk
    split at h
    · rename_i rh he
      obtain ⟨h1, _⟩ := Prod.mk.inj (Option.some.inj h)
      unfold encodeBlockHeaderToRlp at he
      split at he
      · exact absurd he (by simp)
      · exact h1 ▸ toRlp_canonical he
    · exact absurd h (by simp)

/-- C6 is false as stated: for the request `optsA`, whose account address is
supplied in mixed (checksummed) case, the successful run copies the account
verbatim into the result, and the `slotValue`/`blockNumber` fields are viem's
un-padded minimal hex, here with an odd number of digits. -/
theorem C6_counterexample :
    generateStorageProof kTest oracleOk optsA = some (.ok resultOk) ∧
    optsA.account = "0xAbCd" ∧
    resultOk.account = "0xAbCd" ∧ isCanonicalLowerHex resultOk.account = false ∧
    resultOk.slotValue = "0x1" ∧ isCanonicalLowerHex resultOk.slotValue = false ∧
    resultOk.blockNumber = "0x3" ∧ isCanonicalLowerHex resultOk.blockNumber = false :=
  ⟨rfl, rfl, rfl, by decide, rfl, by decide, rfl, by decide⟩

/-- C6 (amended). Provided the RPC-reported byte fields (block hash, state
root, send root, raw header) are themselves canonical, every hash/byte field
of a successfully returned result is canonical lowercase `0x`-prefixed
even-length hex — except that `account` is echoed verbatim as supplied in the
request (mixed case survives), and `blockNumber` and `slotValue` are
lowercase `0x`-prefixed minimal hex that may have an odd number of digits. -/
theorem C6_hex_formatting (keccak : String → String) (oracle : RpcOracle)
    (options : ProofGeneratorOptions) (r : StorageProofResult)
    (hhash : isCanonicalLowerHex (oracle.getBlock options.blockNumber).hash = true)
    (hroot : isCanonicalLowerHex (oracle.getBlock options.blockNumber).stateRoot = true)
    (hsend : ∀ sr, (oracle.getBlock options.blockNumber).sendRoot = some sr →
      isCanonicalLowerHex sr = true)
    (hraw : ∀ raw, oracle.rawHeader options.blockNumber = .ok raw →
      isCanonicalLowerHex raw = true)
    (h : generateStorageProof keccak oracle options = some (.ok r)) :
    isCanonicalLowerHex r.blockHash = true ∧
    isCanonicalLowerHex r.stateRoot = true ∧
    isCanonicalLowerHex r.slot = true ∧
    isCanonicalLowerHex r.rlpBlockHeader = true ∧
    isCanonicalLowerHex r.rlpAccountProof = true ∧
    isCanonicalLowerHex r.rlpStorageProof = true ∧
    (∀ sr, r.sendRoot = some sr → isCanonicalLowerHex sr = true) ∧
    r.account = options.account ∧
    (∃ ds, r.blockNumber.data = '0' :: 'x' :: ds ∧ ∀ c ∈ ds, isLowerHexDigit c = true) ∧
    (∃ ds, r.slotValue.data = '0' :: 'x' :: ds ∧ ∀ c ∈ ds, isLowerHexDigit c = true) := by
  obtain ⟨rlp, m, parts, slotHex, hres, hmatch, hparts, hrooteq, hslot, hr⟩ :=
    (generateStorageProof_eq_ok keccak oracle options r).mp h
  obtain ⟨key, fstAcc, accRest, fstStor, storRest, ra, rs, hkey, hacc, hstor, hra, hrs,
    hpr⟩ :=
    (getStorageAndAccountProof_eq_some keccak oracle options.account options.slot
      options.blockNumber parts).mp hparts
  subst hr
  subst hpr
  refine ⟨hhash, hroot, numberToHexSize32_canonical hslot,
    getRlpBlockHeader_canonical hraw hres, toRlp_canonical hra, toRlp_canonical hrs,
    ?_, rfl, jsToHex_form _, ⟨(toString16 fstStor.value).data, rfl,
      toString16_mem_lower fstStor.value⟩⟩
  intro sr hsr
  have hsr2 : (match (oracle.getBlock options.blockNumber).sendRoot with
      | some s => if s ≠ "" then some s else none
      | none => none) = some sr := hsr
  cases hx : (oracle.getBlock options.blockNumber).sendRoot with
  | none => simp [hx] at hsr2
  | some s =>
    simp only [hx] at hsr2
    by_cases hs : s = ""
    · simp [hs] at hsr2
    · rw [if_pos hs] at hsr2
      exact (Option.some.inj hsr2) ▸ hsend s hx

/-- Witness for the amended C6 at the `oracleOk` run: all RPC-supplied fields
are canonical there, and the conclusion holds for `resultOk`. -/
theorem C6_witness :
    isCanonicalLowerHex resultOk.blockHash = true ∧
    isCanonicalLowerHex resultOk.stateRoot = true ∧
    isCanonicalLowerHex resultOk.slot = true ∧
    isCanonicalLowerHex resultOk.rlpBlockHeader = true ∧
    isCanonicalLowerHex resultOk.rlpAccountProof = true ∧
    isCanonicalLowerHex resultOk.rlpStorageProof = true ∧
    (∀ sr, resultOk.sendRoot = some sr → isCanonicalLowerHex sr = true) ∧
    resultOk.account = optsA.account ∧
    (∃ ds, resultOk.blockNumber.data = '0' :: 'x' :: ds ∧
      ∀ c ∈ ds, isLowerHexDigit c = true) ∧
    (∃ ds, resultOk.slotValue.data = '0' :: 'x' :: ds ∧
      ∀ c ∈ ds, isLowerHexDigit c = true) :=
  C6_hex_formatting kTest oracleOk optsA resultOk (by decide) (by decide)
    (fun sr hsr => by exact absurd hsr (by simp [oracleOk, hdrOk]))
    (fun raw hraw => by
      have h1 : raw = "0xaa" := (Except.ok.inj hraw).symm
      rw [h1]; decide)
    rfl

end StorageProof
